import Mathlib

/-!
Verification of the hierarchical report parsers of `hdfs_info.py`
(`interpret_fsck_output`, the consistency-report dialect, and
`interpret_dfsadmin_report`, the capacity-report dialect).

The Python functions iterate over `text.splitlines()`; the embedding takes
the list of lines directly.  Machine strings are modelled as Lean `String`
with the character-level operations spelled out on `List Char`; the ASCII
fragments of the Python builtins (`str.strip`, `str.lower`, `int`) are
modelled explicitly (the inputs these parsers see are ASCII).  Python
runtime exceptions (`ValueError` from `int`, `TypeError`/`KeyError` from
subscripting) are modelled with `Except PyErr`.
-/

/-- Characters removed by Python `str.strip()` (ASCII whitespace). -/
def isPySpace (c : Char) : Bool :=
  c = ' ' || c = '\t' || c = '\n' || c = '\x0d' || c = '\x0b' || c = '\x0c'

/-- Python `str.strip()` on a character list: drop whitespace from both ends. -/
def stripL (l : List Char) : List Char :=
  ((l.dropWhile isPySpace).reverse.dropWhile isPySpace).reverse

/-- Python `line.split(':', 1)` guarded by `':' in line`: `none` when the line
has no colon, otherwise the text before and after the first colon. -/
def splitColon : List Char → Option (List Char × List Char)
  | [] => none
  | c :: cs =>
    if c = ':' then some ([], cs)
    else (splitColon cs).map (fun p => (c :: p.1, p.2))

/-- Python `s.split(' (')[0]`: the text before the first occurrence of
a space immediately followed by an opening parenthesis. -/
def cutParen : List Char → List Char
  | [] => []
  | [c] => [c]
  | c :: d :: rest =>
    if c = ' ' ∧ d = '(' then [] else c :: cutParen (d :: rest)

/-- Python `str.lower()` restricted to ASCII: each uppercase letter is mapped
to its lowercase counterpart, all other characters are unchanged. -/
def lowerChar (c : Char) : Char :=
  if c = 'A' then 'a' else if c = 'B' then 'b' else if c = 'C' then 'c'
  else if c = 'D' then 'd' else if c = 'E' then 'e' else if c = 'F' then 'f'
  else if c = 'G' then 'g' else if c = 'H' then 'h' else if c = 'I' then 'i'
  else if c = 'J' then 'j' else if c = 'K' then 'k' else if c = 'L' then 'l'
  else if c = 'M' then 'm' else if c = 'N' then 'n' else if c = 'O' then 'o'
  else if c = 'P' then 'p' else if c = 'Q' then 'q' else if c = 'R' then 'r'
  else if c = 'S' then 's' else if c = 'T' then 't' else if c = 'U' then 'u'
  else if c = 'V' then 'v' else if c = 'W' then 'w' else if c = 'X' then 'x'
  else if c = 'Y' then 'y' else if c = 'Z' then 'z' else c

/-- Python `str.lower()` over a character list. -/
def lowerL (l : List Char) : List Char := l.map lowerChar

/-- Python `s.replace(' ', '_')`. -/
def replaceSpace (l : List Char) : List Char :=
  l.map (fun c => if c = ' ' then '_' else c)

/-- Python `s.replace('%', '_pct')`. -/
def replacePct (l : List Char) : List Char :=
  l.flatMap (fun c => if c = '%' then ['_', 'p', 'c', 't'] else [c])

/-- The key normalization of `interpret_dfsadmin_report` (line 196 of the
source): `key.strip().split(' (')[0].lower().replace(' ', '_').replace('%', '_pct')`. -/
def normKeyL (l : List Char) : List Char :=
  replacePct (replaceSpace (lowerL (cutParen (stripL l))))

/-- Key normalization on `String`. -/
def normKey (s : String) : String := String.mk (normKeyL s.data)

/-- The value processing of `interpret_dfsadmin_report` (line 197):
`value.strip().split(' (')[0]`. -/
def stripValL (l : List Char) : List Char := cutParen (stripL l)

/-- Python `line.split('(')[-1]`: the text after the last opening parenthesis
(the whole line when there is none). -/
def afterLastParen (l : List Char) : List Char :=
  (l.reverse.takeWhile (fun c => c ≠ '(')).reverse

/-- Python `line.split('(')[-1].split(')')[0]`: the text the capacity parser
passes to `int(...)` when extracting a section count (line 209). -/
def countText (l : List Char) : List Char :=
  (afterLastParen l).takeWhile (fun c => c ≠ ')')

/-- Characters `0`-`9` recognised by Python `int`. -/
def isDigitChar (c : Char) : Bool := '0' ≤ c ∧ c ≤ '9'

/-- Digit-sequence value, for `pyInt`. -/
def digitsVal (l : List Char) : Nat :=
  l.foldl (fun acc c => 10 * acc + (c.toNat - 48)) 0

/-- Python `int(s)` on its decimal fragment: surrounding whitespace is
ignored, an optional single sign is allowed, and the remainder must be a
nonempty digit sequence; any other input raises `ValueError` (modelled as
`none`).  Underscore digit-group separators are not modelled. -/
def pyInt (l : List Char) : Option Int :=
  let t := stripL l
  match t with
  | '+' :: ds =>
    if ds ≠ [] ∧ ds.all isDigitChar then some (Int.ofNat (digitsVal ds)) else none
  | '-' :: ds =>
    if ds ≠ [] ∧ ds.all isDigitChar then some (-(Int.ofNat (digitsVal ds))) else none
  | ds =>
    if ds ≠ [] ∧ ds.all isDigitChar then some (Int.ofNat (digitsVal ds)) else none

/-- Python `dict` assignment `d[k] = v` on an insertion-ordered association
list: replace in place when the key is present, append otherwise. -/
def updA {α : Type} : List (String × α) → String → α → List (String × α)
  | [], k, v => [(k, v)]
  | (k0, v0) :: rest, k, v =>
    if k0 = k then (k0, v) :: rest else (k0, v0) :: updA rest k v

/-- Python `dict` lookup `d[k]` / membership `k in d`. -/
def lookupA {α : Type} : List (String × α) → String → Option α
  | [], _ => none
  | (k0, v0) :: rest, k => if k0 = k then some v0 else lookupA rest k

/-- Python truthiness of the `current_section` variable: `None` and the empty
string are falsy, any other string is truthy. -/
def truthy : Option String → Bool
  | none => false
  | some s => s ≠ ""

/-- The values stored in a parsed report: a string leaf, a string-valued
object (one nesting level, as built by both parsers), or a list of
string-valued objects (array sections of the capacity parser). -/
inductive Val where
  | leaf : String → Val
  | obj : List (String × String) → Val
  | vlist : List (List (String × String)) → Val
deriving DecidableEq, Repr

/-- Python runtime errors the parsers can raise: `ValueError` from `int`
(carrying the invalid literal text, which is all the exception payload
determines about the input), `TypeError` from subscripting a non-dict, and
`KeyError` from a missing key. -/
inductive PyErr where
  | valueError : String → PyErr
  | typeError : PyErr
  | keyError : PyErr
deriving DecidableEq, Repr

/-- A parsed report: the top-level insertion-ordered dictionary. -/
abbrev Report := List (String × Val)

/-! ### The consistency-report dialect: `interpret_fsck_output` (lines 157-179) -/

/-- State of `interpret_fsck_output`: the dictionary under construction and
`current_section`. -/
structure FsckState where
  dict : Report
  cs : Option String
deriving DecidableEq, Repr

/-- One line of `interpret_fsck_output` (lines 162-177 of the source): lines
without a colon are skipped; the text around the first colon is trimmed; an
empty value starts a section (assigning a fresh empty dict); a non-empty value
is stored under the current section when one is open, at top level otherwise. -/
def stepFsck (st : FsckState) (line : String) : Except PyErr FsckState :=
  match splitColon line.data with
  | none => .ok st
  | some (k0, v0) =>
    let key := String.mk (stripL k0)
    let value := String.mk (stripL v0)
    if value = "" then
      .ok ⟨updA st.dict key (Val.obj []), some key⟩
    else
      match st.cs with
      | some s =>
        match lookupA st.dict s with
        | some (Val.obj m) => .ok ⟨updA st.dict s (Val.obj (updA m key value)), some s⟩
        | some _ => .error PyErr.typeError
        | none => .error PyErr.keyError
      | none => .ok ⟨updA st.dict key (Val.leaf value), none⟩

/-- Run `interpret_fsck_output` over a list of lines, returning the state. -/
def runFsck (lines : List String) : Except PyErr FsckState :=
  lines.foldlM stepFsck ⟨[], none⟩

/-- The consistency-report dialect: `interpret_fsck_output` of the source,
over the lines of the fsck output. -/
def interpret_fsck_output (lines : List String) : Except PyErr Report :=
  (runFsck lines).map FsckState.dict

/-! ### The capacity-report dialect: `interpret_dfsadmin_report` (lines 182-247) -/

/-- State of `interpret_dfsadmin_report`: in source order, `dfsadmin_dict`,
`current_section`, `current_object_list`, `current_object`,
`objects_remaining`, `in_object_section`, `is_array`. -/
structure DfsState where
  dict : Report
  cs : Option String
  col : List (List (String × String))
  cobj : List (String × String)
  rem : Int
  inObj : Bool
  isArr : Bool
deriving DecidableEq, Repr

/-- Initial state of `interpret_dfsadmin_report` (lines 184-190). -/
def dfsInit : DfsState := ⟨[], none, [], [], 0, false, false⟩

/-- The section-count expression of line 209 of the source:
`int(line.split('(')[-1].split(')')[0]) if '(' in line.split(':')[0] else 1`,
where `l` is the stripped line and `k0` the text before its first colon.
A failing `int` raises `ValueError` carrying the invalid literal. -/
def headerRem (l k0 : List Char) : Except PyErr Int :=
  if '(' ∈ k0 then
    match pyInt (countText l) with
    | some n => .ok n
    | none => .error (.valueError (String.mk (countText l)))
  else .ok 1

/-- One line of `interpret_dfsadmin_report` (lines 192-236 of the source).
The line is stripped; a colon-line with empty processed value flushes any open
section and opens a new one (count from the key parenthetical, default 1); a
colon-line with non-empty value goes into the current entry object when
`in_object_section and objects_remaining > 0`, else under the open section (or
top level); a blank line closes the current entry object. -/
def stepDfs (st : DfsState) (line : String) : Except PyErr DfsState :=
  let l := stripL line.data
  match splitColon l with
  | some (k0, v0) =>
    let key := String.mk (normKeyL k0)
    let value := stripValL v0
    if value = [] then
      let d1 :=
        if truthy st.cs then
          updA st.dict (st.cs.getD "") (if st.isArr then Val.vlist st.col else Val.obj st.cobj)
        else st.dict
      match headerRem l k0 with
      | .ok n => .ok ⟨d1, some key, [], [], n, decide (0 < n), decide ('(' ∈ l)⟩
      | .error e => .error e
    else
      let v := String.mk value
      if st.inObj ∧ 0 < st.rem then
        .ok { st with cobj := updA st.cobj key v }
      else if truthy st.cs then
        let s := st.cs.getD ""
        let d1 := if (lookupA st.dict s).isSome then st.dict else updA st.dict s (Val.obj [])
        match lookupA d1 s with
        | some (Val.obj m) => .ok { st with dict := updA d1 s (Val.obj (updA m key v)) }
        | some _ => .error PyErr.typeError
        | none => .error PyErr.keyError
      else
        .ok { st with dict := updA st.dict key (Val.leaf v) }
  | none =>
    if l = [] then
      if st.inObj ∧ st.cs ≠ none then
        if st.isArr then
          if st.cobj ≠ [] then
            .ok { st with col := st.col ++ [st.cobj], rem := st.rem - 1, cobj := [] }
          else
            .ok { st with cobj := [] }
        else
          .ok { st with dict := updA st.dict (st.cs.getD "") (Val.obj st.cobj),
                        cs := none, rem := st.rem - 1, cobj := [] }
      else .ok st
    else .ok st

/-- Run the line loop of `interpret_dfsadmin_report`, returning the state. -/
def runDfs (lines : List String) : Except PyErr DfsState :=
  lines.foldlM stepDfs dfsInit

/-- The trailing flush of `interpret_dfsadmin_report` (lines 239-246): if a
section is still open, an array section appends a non-empty in-progress entry
and assigns the list, a scalar section assigns the in-progress object. -/
def finishDfs (st : DfsState) : Report :=
  if truthy st.cs then
    if st.isArr then
      let col2 := if st.cobj ≠ [] then st.col ++ [st.cobj] else st.col
      updA st.dict (st.cs.getD "") (Val.vlist col2)
    else
      updA st.dict (st.cs.getD "") (Val.obj st.cobj)
  else st.dict

/-- The capacity-report dialect: `interpret_dfsadmin_report` of the source,
over the lines of the dfsadmin report output. -/
def interpret_dfsadmin_report (lines : List String) : Except PyErr Report :=
  (runDfs lines).map finishDfs

/-! ### Derived line classifications used to state the claims -/

/-- A line the capacity parser treats as a section header: it contains a colon
and the processed value (trimmed, parenthetical-stripped) is empty. -/
def isHeaderB (line : String) : Bool :=
  match splitColon (stripL line.data) with
  | some (_, v) => stripValL v = []
  | none => false

/-- A line the capacity parser treats as a key/value pair: it contains a colon
and the processed value is non-empty. -/
def entryLineB (line : String) : Bool :=
  match splitColon (stripL line.data) with
  | some (_, v) => stripValL v ≠ []
  | none => false

/-- The entry object accumulated by the capacity parser over the key/value
lines of one array-section entry, starting from `m`. -/
def entryObj (m : List (String × String)) (e : List String) : List (String × String) :=
  e.foldl
    (fun acc line =>
      match splitColon (stripL line.data) with
      | some (k, v) => updA acc (String.mk (normKeyL k)) (String.mk (stripValL v))
      | none => acc)
    m

/-- The line list of a sequence of array-section entries, each entry followed
by its delimiting blank line. -/
def entriesLines (es : List (List String)) : List String :=
  es.flatMap (fun e => e ++ [""])

/-- The preservation invariant of the consistency parser: when a section is
open, the report binds the section name to an object. -/
def FsckInv (st : FsckState) : Prop :=
  ∀ s : String, st.cs = some s → ∃ m, lookupA st.dict s = some (Val.obj m)

/-- The uppercase ASCII letters. -/
def upperChars : List Char :=
  ['A', 'B', 'C', 'D', 'E', 'F', 'G', 'H', 'I', 'J', 'K', 'L', 'M',
   'N', 'O', 'P', 'Q', 'R', 'S', 'T', 'U', 'V', 'W', 'X', 'Y', 'Z']

/-! ### Basic lemmas about the string primitives and association lists -/

theorem exceptBind_ok {ε α β : Type} (a : α) (f : α → Except ε β) :
    (Except.ok a >>= f) = f a := rfl

theorem exceptBind_error {ε α β : Type} (e : ε) (f : α → Except ε β) :
    ((Except.error e : Except ε α) >>= f) = Except.error e := rfl

theorem stringMk_eq_empty (l : List Char) : (String.mk l = "") ↔ l = [] := by
  constructor
  · intro h
    simpa using congrArg String.data h
  · rintro rfl
    rfl

theorem splitColon_eq : ∀ (l k v : List Char), splitColon l = some (k, v) → l = k ++ ':' :: v
  | [], k, v, h => by simp [splitColon] at h
  | c :: cs, k, v, h => by
    by_cases hc : c = ':'
    · subst hc
      simp [splitColon] at h
      obtain ⟨h1, h2⟩ := h
      subst h1
      subst h2
      rfl
    · simp only [splitColon, if_neg hc] at h
      cases hsc : splitColon cs with
      | none => rw [hsc] at h; simp at h
      | some p =>
        obtain ⟨k2, v2⟩ := p
        rw [hsc] at h
        simp only [Option.map_some'] at h
        injection h with hpair
        injection hpair with hk hv
        subst hk
        subst hv
        rw [show c :: cs = c :: (k2 ++ ':' :: v2) from by rw [← splitColon_eq cs k2 v2 hsc]]
        rfl

theorem updA_ne_nil {α : Type} (d : List (String × α)) (k : String) (v : α) :
    updA d k v ≠ [] := by
  cases d with
  | nil => simp [updA]
  | cons h t =>
    obtain ⟨k0, v0⟩ := h
    simp only [updA]
    split <;> simp

theorem lookupA_updA_self {α : Type} (d : List (String × α)) (k : String) (v : α) :
    lookupA (updA d k v) k = some v := by
  induction d with
  | nil => simp [updA, lookupA]
  | cons h t ih =>
    obtain ⟨k0, v0⟩ := h
    by_cases hk : k0 = k <;> simp [updA, lookupA, hk, ih]

theorem updA_updA_self {α : Type} (d : List (String × α)) (k : String) (v w : α) :
    updA (updA d k v) k w = updA d k w := by
  induction d with
  | nil => simp [updA]
  | cons h t ih =>
    obtain ⟨k0, v0⟩ := h
    by_cases hk : k0 = k <;> simp [updA, hk, ih]

/-! ### Step lemmas for the consistency parser -/

theorem stepFsck_header (st : FsckState) (line : String) (k0 v0 : List Char)
    (hsplit : splitColon line.data = some (k0, v0)) (hval : stripL v0 = []) :
    stepFsck st line =
      .ok ⟨updA st.dict (String.mk (stripL k0)) (Val.obj []), some (String.mk (stripL k0))⟩ := by
  simp [stepFsck, hsplit, hval, stringMk_eq_empty]

theorem stepFsck_top (st : FsckState) (line : String) (k0 v0 : List Char)
    (hsplit : splitColon line.data = some (k0, v0)) (hval : stripL v0 ≠ [])
    (hcs : st.cs = none) :
    stepFsck st line =
      .ok ⟨updA st.dict (String.mk (stripL k0)) (Val.leaf (String.mk (stripL v0))), none⟩ := by
  simp [stepFsck, hsplit, hval, stringMk_eq_empty, hcs]

theorem stepFsck_sect (st : FsckState) (line : String) (k0 v0 : List Char) (s : String)
    (m : List (String × String))
    (hsplit : splitColon line.data = some (k0, v0)) (hval : stripL v0 ≠ [])
    (hcs : st.cs = some s) (hm : lookupA st.dict s = some (Val.obj m)) :
    stepFsck st line =
      .ok ⟨updA st.dict s (Val.obj (updA m (String.mk (stripL k0)) (String.mk (stripL v0)))),
           some s⟩ := by
  simp [stepFsck, hsplit, hval, stringMk_eq_empty, hcs, hm]

theorem stepFsck_ok (st : FsckState) (hinv : FsckInv st) (line : String) :
    ∃ st2, stepFsck st line = .ok st2 ∧ FsckInv st2 := by
  cases hsplit : splitColon line.data with
  | none =>
    exact ⟨st, by simp [stepFsck, hsplit], hinv⟩
  | some p =>
    obtain ⟨k0, v0⟩ := p
    by_cases hval : stripL v0 = []
    · refine ⟨_, stepFsck_header st line k0 v0 hsplit hval, ?_⟩
      intro s hs
      simp only [Option.some.injEq] at hs
      subst hs
      exact ⟨[], lookupA_updA_self _ _ _⟩
    · cases hcs : st.cs with
      | none =>
        refine ⟨_, stepFsck_top st line k0 v0 hsplit hval hcs, ?_⟩
        intro s hs
        simp at hs
      | some s =>
        obtain ⟨m, hm⟩ := hinv s hcs
        refine ⟨_, stepFsck_sect st line k0 v0 s m hsplit hval hcs hm, ?_⟩
        intro s2 hs2
        simp only [Option.some.injEq] at hs2
        subst hs2
        exact ⟨_, lookupA_updA_self _ _ _⟩

theorem runFsck_from_ok (lines : List String) (st : FsckState) (hinv : FsckInv st) :
    ∃ st2, lines.foldlM stepFsck st = .ok st2 ∧ FsckInv st2 := by
  induction lines generalizing st with
  | nil => exact ⟨st, rfl, hinv⟩
  | cons l ls ih =>
    obtain ⟨st2, hstep, hinv2⟩ := stepFsck_ok st hinv l
    obtain ⟨st3, hrun, hinv3⟩ := ih st2 hinv2
    refine ⟨st3, ?_, hinv3⟩
    rw [List.foldlM_cons, hstep, exceptBind_ok, hrun]

theorem runFsck_ok (lines : List String) :
    ∃ st, runFsck lines = .ok st ∧ FsckInv st := by
  refine runFsck_from_ok lines ⟨[], none⟩ ?_
  intro s hs
  simp at hs

theorem interpretFsck_append_one (pre : List String) (line : String) (st st2 : FsckState)
    (h1 : runFsck pre = .ok st) (h2 : stepFsck st line = .ok st2) :
    interpret_fsck_output (pre ++ [line]) = .ok st2.dict := by
  rw [interpret_fsck_output, runFsck, List.foldlM_append]
  rw [show (pre.foldlM stepFsck ⟨[], none⟩ : Except PyErr FsckState) = .ok st from h1]
  rw [exceptBind_ok, List.foldlM_cons, h2, exceptBind_ok, List.foldlM_nil]
  rfl

/-! ### Step lemmas for the capacity parser -/

theorem stepDfs_header (st : DfsState) (line : String) (k0 v0 : List Char) (n : Int)
    (hsplit : splitColon (stripL line.data) = some (k0, v0))
    (hval : stripValL v0 = [])
    (hrem : headerRem (stripL line.data) k0 = .ok n) :
    stepDfs st line = .ok
      ⟨(if truthy st.cs then
          updA st.dict (st.cs.getD "") (if st.isArr then Val.vlist st.col else Val.obj st.cobj)
        else st.dict),
       some (String.mk (normKeyL k0)), [], [], n, decide (0 < n),
       decide ('(' ∈ stripL line.data)⟩ := by
  simp [stepDfs, hsplit, hval, hrem]

theorem stepDfs_header_init (line : String) (k0 v0 : List Char) (n : Int)
    (hsplit : splitColon (stripL line.data) = some (k0, v0))
    (hval : stripValL v0 = [])
    (hrem : headerRem (stripL line.data) k0 = .ok n) :
    stepDfs dfsInit line = .ok
      ⟨[], some (String.mk (normKeyL k0)), [], [], n, decide (0 < n),
       decide ('(' ∈ stripL line.data)⟩ := by
  rw [stepDfs_header dfsInit line k0 v0 n hsplit hval hrem]
  rfl

theorem stepDfs_header_err (st : DfsState) (h : String) (k0 v0 : List Char)
    (hsplit : splitColon (stripL h.data) = some (k0, v0))
    (hval : stripValL v0 = [])
    (hpar : '(' ∈ k0)
    (hpy : pyInt (countText (stripL h.data)) = none) :
    stepDfs st h = .error (.valueError (String.mk (countText (stripL h.data)))) := by
  have hr : headerRem (stripL h.data) k0 =
      .error (.valueError (String.mk (countText (stripL h.data)))) := by
    simp [headerRem, hpar, hpy]
  simp [stepDfs, hsplit, hval, hr]

theorem stepDfs_kv_top (st : DfsState) (line : String) (k0 v0 : List Char)
    (hsplit : splitColon (stripL line.data) = some (k0, v0))
    (hval : stripValL v0 ≠ [])
    (hcond : ¬(st.inObj = true ∧ 0 < st.rem))
    (hcs : truthy st.cs = false) :
    stepDfs st line =
      .ok { st with
            dict := updA st.dict (String.mk (normKeyL k0))
              (Val.leaf (String.mk (stripValL v0))) } := by
  simp [stepDfs, hsplit, hval, hcond, hcs]

theorem stepDfs_entry_c (line : String) (k0 v0 : List Char)
    (hsplit : splitColon (stripL line.data) = some (k0, v0))
    (hval : stripValL v0 ≠ [])
    (d : Report) (cs : Option String) (col : List (List (String × String)))
    (cobj : List (String × String)) (r : Int) (b : Bool) (hr : 0 < r) :
    stepDfs ⟨d, cs, col, cobj, r, true, b⟩ line =
      .ok ⟨d, cs, col, updA cobj (String.mk (normKeyL k0)) (String.mk (stripValL v0)),
           r, true, b⟩ := by
  simp [stepDfs, hsplit, hval, hr]

theorem stepDfs_kv_sect_new_c (line : String) (k0 v0 : List Char) (s : String)
    (d : Report) (col : List (List (String × String))) (cobj : List (String × String))
    (r : Int) (arr : Bool)
    (hsplit : splitColon (stripL line.data) = some (k0, v0))
    (hval : stripValL v0 ≠ [])
    (hr : ¬ 0 < r)
    (hs : s ≠ "")
    (hm : lookupA d s = none) :
    stepDfs ⟨d, some s, col, cobj, r, true, arr⟩ line =
      .ok ⟨updA d s (Val.obj [(String.mk (normKeyL k0), String.mk (stripValL v0))]),
           some s, col, cobj, r, true, arr⟩ := by
  simp [stepDfs, hsplit, hval, hr, truthy, hs, hm, lookupA_updA_self, updA_updA_self, updA]

theorem stepDfs_kv_sect_c (line : String) (k0 v0 : List Char) (s : String)
    (m : List (String × String)) (d : Report)
    (col : List (List (String × String))) (cobj : List (String × String))
    (r : Int) (arr : Bool)
    (hsplit : splitColon (stripL line.data) = some (k0, v0))
    (hval : stripValL v0 ≠ [])
    (hr : ¬ 0 < r)
    (hs : s ≠ "")
    (hm : lookupA d s = some (Val.obj m)) :
    stepDfs ⟨d, some s, col, cobj, r, false, arr⟩ line =
      .ok ⟨updA d s (Val.obj (updA m (String.mk (normKeyL k0)) (String.mk (stripValL v0)))),
           some s, col, cobj, r, false, arr⟩ := by
  simp [stepDfs, hsplit, hval, hr, truthy, hs, hm]

theorem stepDfs_kv_sect_new_c0 (line : String) (k0 v0 : List Char) (s : String)
    (col : List (List (String × String))) (cobj : List (String × String))
    (r : Int) (arr : Bool)
    (hsplit : splitColon (stripL line.data) = some (k0, v0))
    (hval : stripValL v0 ≠ [])
    (hr : ¬ 0 < r)
    (hs : s ≠ "") :
    stepDfs ⟨[], some s, col, cobj, r, false, arr⟩ line =
      .ok ⟨[(s, Val.obj [(String.mk (normKeyL k0), String.mk (stripValL v0))])],
           some s, col, cobj, r, false, arr⟩ := by
  simp [stepDfs, hsplit, hval, hr, truthy, hs, lookupA, lookupA_updA_self, updA_updA_self, updA]

theorem stepDfs_blank_arr_c (d : Report) (cs : Option String)
    (col : List (List (String × String))) (cobj : List (String × String)) (r : Int)
    (hcs : cs ≠ none) (hc : cobj ≠ []) :
    stepDfs ⟨d, cs, col, cobj, r, true, true⟩ "" =
      .ok ⟨d, cs, col ++ [cobj], [], r - 1, true, true⟩ := by
  simp [stepDfs, stripL, splitColon, hcs, hc]

theorem runDfs_append_one (pre : List String) (line : String) (st st2 : DfsState)
    (h1 : runDfs pre = .ok st) (h2 : stepDfs st line = .ok st2) :
    runDfs (pre ++ [line]) = .ok st2 := by
  rw [runDfs, List.foldlM_append, show pre.foldlM stepDfs dfsInit = .ok st from h1,
    exceptBind_ok, List.foldlM_cons, h2, exceptBind_ok, List.foldlM_nil]
  rfl

/-! ### Running the capacity parser over the entries of an array section -/

theorem entryLineB_elim (l : String) (h : entryLineB l = true) :
    ∃ k v, splitColon (stripL l.data) = some (k, v) ∧ stripValL v ≠ [] := by
  unfold entryLineB at h
  cases hsp : splitColon (stripL l.data) with
  | none => rw [hsp] at h; simp at h
  | some p =>
    obtain ⟨k, v⟩ := p
    rw [hsp] at h
    simp only [decide_eq_true_eq] at h
    exact ⟨k, v, rfl, by simpa using h⟩

theorem entryObj_cons (m : List (String × String)) (l : String) (e : List String)
    (k v : List Char) (hsp : splitColon (stripL l.data) = some (k, v)) :
    entryObj m (l :: e) =
      entryObj (updA m (String.mk (normKeyL k)) (String.mk (stripValL v))) e := by
  simp [entryObj, hsp]

theorem entryObj_ne_nil :
    ∀ (e : List String) (m : List (String × String)), e ≠ [] →
      (∀ l ∈ e, entryLineB l = true) → entryObj m e ≠ []
  | [], _, h, _ => absurd rfl h
  | [l], m, _, he => by
    obtain ⟨k, v, hsp, _⟩ := entryLineB_elim l (he l (by simp))
    rw [entryObj_cons m l [] k v hsp]
    exact updA_ne_nil m _ _
  | l :: l2 :: e, m, _, he => by
    obtain ⟨k, v, hsp, _⟩ := entryLineB_elim l (he l (by simp))
    rw [entryObj_cons m l (l2 :: e) k v hsp]
    exact entryObj_ne_nil (l2 :: e) _ (by simp) (fun x hx => he x (by simp [hx]))

theorem runEntryLines :
    ∀ (e : List String), (∀ l ∈ e, entryLineB l = true) →
      ∀ (d : Report) (cs : Option String) (col : List (List (String × String)))
        (cobj : List (String × String)) (r : Int) (b : Bool), 0 < r →
        e.foldlM stepDfs ⟨d, cs, col, cobj, r, true, b⟩ =
          .ok ⟨d, cs, col, entryObj cobj e, r, true, b⟩ := by
  intro e
  induction e with
  | nil => intro _ d cs col cobj r b _; rfl
  | cons l e ih =>
    intro he d cs col cobj r b hr
    obtain ⟨k, v, hsp, hv⟩ := entryLineB_elim l (he l (by simp))
    rw [List.foldlM_cons, stepDfs_entry_c l k v hsp hv d cs col cobj r b hr, exceptBind_ok]
    rw [ih (fun x hx => he x (by simp [hx])) d cs col _ r b hr]
    rw [entryObj_cons cobj l e k v hsp]

theorem runEntriesLines :
    ∀ (es : List (List String)) (d : Report) (cs : Option String)
      (col : List (List (String × String))) (r : Int),
      (∀ e ∈ es, e ≠ [] ∧ ∀ l ∈ e, entryLineB l = true) →
      cs ≠ none →
      (es.length : Int) ≤ r →
      (entriesLines es).foldlM stepDfs ⟨d, cs, col, [], r, true, true⟩ =
        .ok ⟨d, cs, col ++ es.map (fun e => entryObj [] e), [], r - es.length, true, true⟩ := by
  intro es
  induction es with
  | nil => intro d cs col r _ _ _; simp [entriesLines]; rfl
  | cons e tl ih =>
    intro d cs col r hes hcs hr
    have he : e ≠ [] ∧ ∀ l ∈ e, entryLineB l = true := hes e (by simp)
    have hr1 : 0 < r := by
      have h1 : ((e :: tl).length : Int) = (tl.length : Int) + 1 := by
        simp
      have h2 : (0 : Int) ≤ (tl.length : Int) := Int.natCast_nonneg _
      omega
    have hbody : entriesLines (e :: tl) = e ++ "" :: entriesLines tl := by
      simp [entriesLines]
    rw [hbody, List.foldlM_append]
    rw [runEntryLines e he.2 d cs col [] r true hr1, exceptBind_ok, List.foldlM_cons]
    rw [stepDfs_blank_arr_c d cs col (entryObj [] e) r hcs
      (entryObj_ne_nil e [] he.1 he.2), exceptBind_ok]
    rw [ih d cs (col ++ [entryObj [] e]) (r - 1) (fun x hx => hes x (by simp [hx])) hcs
      (by simp at hr ⊢; omega)]
    have hlen : r - 1 - (tl.length : Int) = r - ((e :: tl).length : Int) := by
      simp
      omega
    rw [hlen, List.map_cons, List.append_assoc]
    rfl

theorem runDfs_arraySection (h : String) (k0 v0 : List Char) (n : Int)
    (es : List (List String))
    (hsplit : splitColon (stripL h.data) = some (k0, v0))
    (hval : stripValL v0 = [])
    (hpar : '(' ∈ k0)
    (hrem : headerRem (stripL h.data) k0 = .ok n)
    (hn : 0 < n)
    (hes : ∀ e ∈ es, e ≠ [] ∧ ∀ l ∈ e, entryLineB l = true)
    (hk : (es.length : Int) ≤ n) :
    runDfs (h :: entriesLines es) =
      .ok ⟨[], some (String.mk (normKeyL k0)), es.map (fun e => entryObj [] e), [],
           n - es.length, true, true⟩ := by
  have harr : '(' ∈ stripL h.data := by
    rw [splitColon_eq _ _ _ hsplit]
    exact List.mem_append_left _ hpar
  have hstep : stepDfs dfsInit h =
      .ok ⟨[], some (String.mk (normKeyL k0)), [], [], n, true, true⟩ := by
    rw [stepDfs_header_init h k0 v0 n hsplit hval hrem]
    simp [hn, harr]
  rw [runDfs, List.foldlM_cons, hstep, exceptBind_ok]
  rw [runEntriesLines es [] (some (String.mk (normKeyL k0))) [] n hes (by simp) hk]
  rfl

/-! ### Character and string lemmas for the key-normalization pipeline -/

theorem mem_stripL (l : List Char) (c : Char) (h : c ∈ stripL l) : c ∈ l := by
  unfold stripL at h
  rw [List.mem_reverse] at h
  have h2 := (List.dropWhile_sublist isPySpace).subset h
  rw [List.mem_reverse] at h2
  exact (List.dropWhile_sublist isPySpace).subset h2

theorem mem_cutParen : ∀ (l : List Char) (c : Char), c ∈ cutParen l → c ∈ l
  | [], _, h => by simp [cutParen] at h
  | [d], c, h => by simpa [cutParen] using h
  | d :: e :: rest, c, h => by
    rw [cutParen] at h
    by_cases hde : d = ' ' ∧ e = '('
    · simp [hde] at h
    · rw [if_neg hde] at h
      rcases List.mem_cons.mp h with h1 | h1
      · simp [h1]
      · exact List.mem_cons_of_mem d (mem_cutParen (e :: rest) c h1)

theorem dropWhile_all_false {p : Char → Bool} :
    ∀ l : List Char, (∀ c ∈ l, p c = false) → l.dropWhile p = l
  | [], _ => rfl
  | c :: cs, h => by
    rw [List.dropWhile_cons, h c (by simp)]
    simp

theorem stripL_eq_self (l : List Char) (h : ∀ c ∈ l, isPySpace c = false) : stripL l = l := by
  unfold stripL
  rw [dropWhile_all_false l h]
  rw [dropWhile_all_false l.reverse (fun c hc => h c (List.mem_reverse.mp hc))]
  exact List.reverse_reverse l

theorem cutParen_no_space : ∀ l : List Char, ' ' ∉ l → cutParen l = l
  | [], _ => rfl
  | [c], _ => rfl
  | c :: d :: rest, h => by
    rw [cutParen, if_neg (fun hcd => h (by simp [hcd.1]))]
    rw [cutParen_no_space (d :: rest) (fun hd => h (List.mem_cons_of_mem c hd))]

theorem map_eq_self_of_fixed {f : Char → Char} :
    ∀ l : List Char, (∀ c ∈ l, f c = c) → l.map f = l
  | [], _ => rfl
  | c :: cs, h => by
    rw [List.map_cons, h c (by simp), map_eq_self_of_fixed cs (fun x hx => h x (by simp [hx]))]

theorem replacePct_eq_self : ∀ l : List Char, (∀ c ∈ l, c ≠ '%') → replacePct l = l
  | [], _ => rfl
  | c :: cs, h => by
    unfold replacePct
    rw [List.flatMap_cons]
    rw [if_neg (h c (by simp))]
    rw [show (cs.flatMap fun c => if c = '%' then ['_', 'p', 'c', 't'] else [c]) =
      replacePct cs from rfl]
    rw [replacePct_eq_self cs (fun x hx => h x (by simp [hx]))]
    rfl

theorem mem_replaceSpace (l : List Char) (c : Char) (h : c ∈ replaceSpace l) :
    c = '_' ∨ (c ∈ l ∧ c ≠ ' ') := by
  unfold replaceSpace at h
  obtain ⟨c0, hc0, hmap⟩ := List.mem_map.mp h
  by_cases h0 : c0 = ' '
  · left
    rw [h0] at hmap
    simpa using hmap.symm
  · right
    rw [if_neg h0] at hmap
    rw [← hmap]
    exact ⟨hc0, h0⟩

theorem mem_replacePct (l : List Char) (c : Char) (h : c ∈ replacePct l) :
    c ∈ (['_', 'p', 'c', 't'] : List Char) ∨ (c ∈ l ∧ c ≠ '%') := by
  unfold replacePct at h
  obtain ⟨c0, hc0, hmem⟩ := List.mem_flatMap.mp h
  by_cases h0 : c0 = '%'
  · left
    rw [if_pos h0] at hmem
    exact hmem
  · right
    rw [if_neg h0] at hmem
    simp only [List.mem_singleton] at hmem
    rw [hmem]
    exact ⟨hc0, h0⟩

theorem lowerChar_of_not_upper (c : Char) (h : c ∉ upperChars) : lowerChar c = c := by
  unfold upperChars at h
  simp only [List.mem_cons, not_or] at h
  obtain ⟨h1, h2, h3, h4, h5, h6, h7, h8, h9, h10, h11, h12, h13, h14, h15, h16, h17, h18,
    h19, h20, h21, h22, h23, h24, h25, h26, -⟩ := h
  unfold lowerChar
  rw [if_neg h1, if_neg h2, if_neg h3, if_neg h4, if_neg h5, if_neg h6, if_neg h7, if_neg h8,
    if_neg h9, if_neg h10, if_neg h11, if_neg h12, if_neg h13, if_neg h14, if_neg h15,
    if_neg h16, if_neg h17, if_neg h18, if_neg h19, if_neg h20, if_neg h21, if_neg h22,
    if_neg h23, if_neg h24, if_neg h25, if_neg h26]

theorem lowerChar_not_upper_of_upper (c : Char) (h : c ∈ upperChars) :
    lowerChar c ∉ upperChars := by
  fin_cases h <;> decide

theorem lowerChar_lowerChar (c : Char) : lowerChar (lowerChar c) = lowerChar c := by
  by_cases hc : c ∈ upperChars
  · exact lowerChar_of_not_upper _ (lowerChar_not_upper_of_upper c hc)
  · rw [lowerChar_of_not_upper c hc]
    rw [lowerChar_of_not_upper c hc]

theorem isPySpace_lowerChar (c : Char) : isPySpace (lowerChar c) = isPySpace c := by
  by_cases hc : c ∈ upperChars
  · fin_cases hc <;> decide
  · rw [lowerChar_of_not_upper c hc]

theorem normKeyL_chars (l0 : List Char) (H : ∀ c ∈ l0, isPySpace c = true → c = ' ') :
    ∀ c ∈ normKeyL l0, isPySpace c = false ∧ lowerChar c = c ∧ c ≠ '%' := by
  intro c hc
  unfold normKeyL at hc
  rcases mem_replacePct _ c hc with h4 | ⟨hc4, hpc⟩
  · fin_cases h4
    · exact ⟨by decide, by decide, by decide⟩
    · exact ⟨by decide, by decide, by decide⟩
    · exact ⟨by decide, by decide, by decide⟩
    · exact ⟨by decide, by decide, by decide⟩
  · rcases mem_replaceSpace _ c hc4 with h5 | ⟨hc5, hsp⟩
    · subst h5
      exact ⟨by decide, by decide, hpc⟩
    · obtain ⟨c0, hc0, hlow⟩ := List.mem_map.mp hc5
      have hc0mem : c0 ∈ l0 := mem_stripL _ _ (mem_cutParen _ _ hc0)
      subst hlow
      refine ⟨?_, lowerChar_lowerChar c0, hpc⟩
      by_cases hps : isPySpace c0 = true
      · exfalso
        have h0 := H c0 hc0mem hps
        subst h0
        exact hsp rfl
      · rw [isPySpace_lowerChar]
        exact Bool.not_eq_true _ ▸ hps

theorem normKeyL_idem (l0 : List Char) (H : ∀ c ∈ l0, isPySpace c = true → c = ' ') :
    normKeyL (normKeyL l0) = normKeyL l0 := by
  have hchars := normKeyL_chars l0 H
  have h1 : ∀ c ∈ normKeyL l0, isPySpace c = false := fun c hc => (hchars c hc).1
  have hnospace : ' ' ∉ normKeyL l0 := fun hsp => by
    have h2 := h1 ' ' hsp
    simp [isPySpace] at h2
  rw [show normKeyL (normKeyL l0) =
    replacePct (replaceSpace (lowerL (cutParen (stripL (normKeyL l0))))) from rfl]
  rw [stripL_eq_self _ h1, cutParen_no_space _ hnospace]
  rw [show lowerL (normKeyL l0) = normKeyL l0 from
    map_eq_self_of_fixed _ (fun c hc => (hchars c hc).2.1)]
  rw [show replaceSpace (normKeyL l0) = normKeyL l0 from
    map_eq_self_of_fixed _ (fun c hc => by
      have hcne : c ≠ ' ' := fun he => hnospace (he ▸ hc)
      exact if_neg hcne)]
  exact replacePct_eq_self _ (fun c hc => (hchars c hc).2.2)

/-! ### The zero-count array section -/

theorem c9_run (mid : List String) (hmid : ∀ l ∈ mid, isHeaderB l = false) :
    ∀ d : Report, (d = [] ∨ ∃ m, d = [("dead_datanodes", Val.obj m)]) →
    ∃ d2, mid.foldlM stepDfs (⟨d, some "dead_datanodes", [], [], 0, false, true⟩ : DfsState) =
      .ok ⟨d2, some "dead_datanodes", [], [], 0, false, true⟩ ∧
      (d2 = [] ∨ ∃ m, d2 = [("dead_datanodes", Val.obj m)]) := by
  induction mid with
  | nil => intro d hd; exact ⟨d, rfl, hd⟩
  | cons l mid ih =>
    intro d hd
    have hl : isHeaderB l = false := hmid l (by simp)
    have hstep : ∃ d1,
        stepDfs (⟨d, some "dead_datanodes", [], [], 0, false, true⟩ : DfsState) l =
          .ok ⟨d1, some "dead_datanodes", [], [], 0, false, true⟩ ∧
        (d1 = [] ∨ ∃ m, d1 = [("dead_datanodes", Val.obj m)]) := by
      cases hsp : splitColon (stripL l.data) with
      | none =>
        refine ⟨d, ?_, hd⟩
        by_cases hb : stripL l.data = []
        · simp [stepDfs, hb, splitColon]
        · simp [stepDfs, hsp, hb]
      | some p =>
        obtain ⟨k, v⟩ := p
        have hv : stripValL v ≠ [] := by
          unfold isHeaderB at hl
          rw [hsp] at hl
          simpa using hl
        rcases hd with hnil | ⟨m, hm⟩
        · subst hnil
          refine ⟨[("dead_datanodes",
            Val.obj [(String.mk (normKeyL k), String.mk (stripValL v))])], ?_, Or.inr ⟨_, rfl⟩⟩
          exact stepDfs_kv_sect_new_c0 l k v "dead_datanodes" [] [] 0 true hsp hv
            (by omega) (by decide)
        · subst hm
          refine ⟨[("dead_datanodes",
            Val.obj (updA m (String.mk (normKeyL k)) (String.mk (stripValL v))))], ?_,
            Or.inr ⟨_, rfl⟩⟩
          have hs := stepDfs_kv_sect_c l k v "dead_datanodes" m
            [("dead_datanodes", Val.obj m)] [] [] 0 true hsp hv (by omega) (by decide)
            (by simp [lookupA])
          rw [hs]
          simp [updA]
    obtain ⟨d1, hstep1, hd1⟩ := hstep
    obtain ⟨d2, hrun, hd2⟩ := ih (fun x hx => hmid x (by simp [hx])) d1 hd1
    exact ⟨d2, by rw [List.foldlM_cons, hstep1, exceptBind_ok, hrun], hd2⟩

/-! ### The claims -/

/-- Claim C1: for a capacity-report input consisting of an array-section
header (a key/value line with empty value whose key carries a parenthetical
declaring count n) followed by blank-line-delimited complete entries, the
parser returns normally and the Report maps the canonical section name to a
List whose length equals the number k of complete entries present, for every
k less than or equal to n; in particular a well-formed input with k = n gives
length n and a truncated input with k below n gives length k, with no error
raised. -/
theorem C1_array_section_list_length (h : String) (k0 v0 : List Char) (n : Int)
    (es : List (List String))
    (hsplit : splitColon (stripL h.data) = some (k0, v0))
    (hval : stripValL v0 = [])
    (hpar : '(' ∈ k0)
    (hrem : headerRem (stripL h.data) k0 = .ok n)
    (hn : 0 < n)
    (hname : normKeyL k0 ≠ [])
    (hes : ∀ e ∈ es, e ≠ [] ∧ ∀ l ∈ e, entryLineB l = true)
    (hk : (es.length : Int) ≤ n) :
    interpret_dfsadmin_report (h :: entriesLines es) =
      .ok [(String.mk (normKeyL k0), Val.vlist (es.map (fun e => entryObj [] e)))] ∧
      (es.map (fun e => entryObj [] e)).length = es.length := by
  constructor
  · rw [interpret_dfsadmin_report,
      runDfs_arraySection h k0 v0 n es hsplit hval hpar hrem hn hes hk]
    have hname2 : String.mk (normKeyL k0) ≠ "" := by
      rw [Ne, stringMk_eq_empty]
      exact hname
    have hfin : finishDfs ⟨[], some (String.mk (normKeyL k0)),
        es.map (fun e => entryObj [] e), [], n - es.length, true, true⟩ =
        [(String.mk (normKeyL k0), Val.vlist (es.map (fun e => entryObj [] e)))] := by
      simp [finishDfs, truthy, hname2, updA]
    rw [show ∀ x : DfsState, (Except.ok x : Except PyErr DfsState).map finishDfs =
      .ok (finishDfs x) from fun x => rfl]
    rw [hfin]
  · simp

theorem C1_array_section_list_length_witness :
    splitColon (stripL ("Live datanodes (2):").data) = some ("Live datanodes (2)".data, []) ∧
    ((0:Int) < 2 ∧ (([["Name: a"]].length : Nat) : Int) ≤ 2 ∧
      (([["Name: a"], ["Name: b"]].length : Nat) : Int) ≤ 2) ∧
    (interpret_dfsadmin_report ("Live datanodes (2):" :: entriesLines [["Name: a"]]) =
      .ok [("live_datanodes", Val.vlist [[("name", "a")]])] ∧
      ([["Name: a"]].map (fun e => entryObj [] e)).length = [["Name: a"]].length) ∧
    (interpret_dfsadmin_report
        ("Live datanodes (2):" :: entriesLines [["Name: a"], ["Name: b"]]) =
      .ok [("live_datanodes", Val.vlist [[("name", "a")], [("name", "b")]])] ∧
      ([["Name: a"], ["Name: b"]].map (fun e => entryObj [] e)).length =
        [["Name: a"], ["Name: b"]].length) :=
  ⟨by decide, ⟨by decide, by decide, by decide⟩,
   C1_array_section_list_length "Live datanodes (2):" "Live datanodes (2)".data [] 2
     [["Name: a"]]
     (by decide) rfl (by decide) (by rfl) (by decide) (by decide) (by decide) (by decide),
   C1_array_section_list_length "Live datanodes (2):" "Live datanodes (2)".data [] 2
     [["Name: a"], ["Name: b"]]
     (by decide) rfl (by decide) (by rfl) (by decide) (by decide) (by decide) (by decide)⟩

/-- Claim C2 counterexample: after the blank line that closes the final
counted entry of `Live datanodes (1)`, the parser does not return to Idle:
the subsequent key/value line `extra: b` is not written at the top level of
the returned Report (it is first written under the section name and then
overwritten by the List), refuting the claimed Idle transition. -/
theorem C2_counterexample :
    interpret_dfsadmin_report ["Live datanodes (1):", "Name: a", "", "extra: b"] =
      .ok [("live_datanodes", Val.vlist [[("name", "a")]])] ∧
    lookupA [("live_datanodes", Val.vlist [[("name", "a")]])] "extra" = none := by
  constructor
  · rfl
  · decide

/-- Claim C2 as amended: when a blank line closes the final counted entry of
an array section, the entry is appended and the remaining count reaches zero,
but the List is not yet assigned and the parser does not return to Idle; a
subsequent key/value line with non-empty value before the next section header
is written under the section name (not at top level) and is overwritten by
the List when the section is flushed, so the returned Report maps the section
name to the List and contains no other key. -/
theorem C2_array_close_not_idle (h : String) (k0 v0 : List Char) (n : Int)
    (es : List (List String)) (t : String) (tk tv : List Char)
    (hsplit : splitColon (stripL h.data) = some (k0, v0))
    (hval : stripValL v0 = [])
    (hpar : '(' ∈ k0)
    (hrem : headerRem (stripL h.data) k0 = .ok n)
    (hn : 0 < n)
    (hname : normKeyL k0 ≠ [])
    (hes : ∀ e ∈ es, e ≠ [] ∧ ∀ l ∈ e, entryLineB l = true)
    (hlen : (es.length : Int) = n)
    (htsplit : splitColon (stripL t.data) = some (tk, tv))
    (htval : stripValL tv ≠ []) :
    interpret_dfsadmin_report ((h :: entriesLines es) ++ [t]) =
      .ok [(String.mk (normKeyL k0), Val.vlist (es.map (fun e => entryObj [] e)))] ∧
      (es.map (fun e => entryObj [] e)).length = es.length := by
  constructor
  · rw [interpret_dfsadmin_report, runDfs, List.foldlM_append]
    rw [show (h :: entriesLines es).foldlM stepDfs dfsInit =
        .ok ⟨[], some (String.mk (normKeyL k0)), es.map (fun e => entryObj [] e), [],
             n - es.length, true, true⟩ from
      runDfs_arraySection h k0 v0 n es hsplit hval hpar hrem hn hes (le_of_eq hlen)]
    rw [exceptBind_ok, List.foldlM_cons]
    have hname2 : String.mk (normKeyL k0) ≠ "" := by
      rw [Ne, stringMk_eq_empty]
      exact hname
    rw [stepDfs_kv_sect_new_c t tk tv (String.mk (normKeyL k0)) [] _ [] (n - es.length) true
      htsplit htval (by omega) hname2 rfl]
    rw [exceptBind_ok, List.foldlM_nil]
    have hfin : finishDfs ⟨updA [] (String.mk (normKeyL k0))
        (Val.obj [(String.mk (normKeyL tk), String.mk (stripValL tv))]),
        some (String.mk (normKeyL k0)), es.map (fun e => entryObj [] e), [],
        n - es.length, true, true⟩ =
        [(String.mk (normKeyL k0), Val.vlist (es.map (fun e => entryObj [] e)))] := by
      simp [finishDfs, truthy, hname2, updA]
    rw [show ∀ x : DfsState, (pure x : Except PyErr DfsState).map finishDfs =
      .ok (finishDfs x) from fun x => rfl]
    rw [hfin]
  · simp

theorem C2_array_close_not_idle_witness :
    splitColon (stripL ("Live datanodes (1):").data) = some ("Live datanodes (1)".data, []) ∧
    (([["Name: a"]].length : Nat) : Int) = 1 ∧
    splitColon (stripL ("extra: b").data) = some ("extra".data, " b".data) ∧
    (interpret_dfsadmin_report
        (("Live datanodes (1):" :: entriesLines [["Name: a"]]) ++ ["extra: b"]) =
      .ok [("live_datanodes", Val.vlist [[("name", "a")]])] ∧
      ([["Name: a"]].map (fun e => entryObj [] e)).length = [["Name: a"]].length) :=
  ⟨by decide, by decide, by decide,
   C2_array_close_not_idle "Live datanodes (1):" "Live datanodes (1)".data [] 1
     [["Name: a"]] "extra: b" "extra".data " b".data
     (by decide) rfl (by decide) (by rfl) (by decide) (by decide) (by decide) (by decide)
     (by decide) (by decide)⟩

/-- Claim C3 counterexample: opening section `B` while array section `A (2)`
is still open (no intervening blank line) assigns the List for `a` WITHOUT
appending the non-empty in-progress entry object, so the entry
`{k: v}` is dropped: the Report maps `a` to the empty List, not to a
one-element List as the claim requires. -/
theorem C3_counterexample :
    interpret_dfsadmin_report ["A (2):", "k: v", "B:", ""] =
      .ok [("a", Val.vlist []), ("b", Val.obj [])] ∧
    Val.vlist ([] : List (List (String × String))) ≠ Val.vlist [[("k", "v")]] := by
  constructor
  · rfl
  · decide

/-- Claim C3 as amended: a section header arriving while another section is
open flushes the previous section into its Report slot, but not exactly as a
blank line would: a scalar section is assigned its in-progress object (as a
blank line would do), while an array section is assigned its accumulated List
WITHOUT first appending the non-empty in-progress entry object, which is
dropped (unlike the end-of-input flush, which appends it). -/
theorem C3_header_flush_drops_pending_entry (pre : List String) (st : DfsState)
    (h : String) (k0 v0 : List Char) (n : Int)
    (hpre : runDfs pre = .ok st)
    (hcs : truthy st.cs = true)
    (hsplit : splitColon (stripL h.data) = some (k0, v0))
    (hval : stripValL v0 = [])
    (hrem : headerRem (stripL h.data) k0 = .ok n) :
    runDfs (pre ++ [h]) = .ok
      ⟨updA st.dict (st.cs.getD "") (if st.isArr then Val.vlist st.col else Val.obj st.cobj),
       some (String.mk (normKeyL k0)), [], [], n, decide (0 < n),
       decide ('(' ∈ stripL h.data)⟩ := by
  refine runDfs_append_one pre h st _ hpre ?_
  rw [stepDfs_header st h k0 v0 n hsplit hval hrem]
  simp [hcs]

theorem C3_header_flush_drops_pending_entry_witness :
    runDfs ["A (2):", "k: v"] =
      .ok ⟨[], some "a", [], [("k", "v")], 2, true, true⟩ ∧
    truthy (some "a") = true ∧
    runDfs (["A (2):", "k: v"] ++ ["B:"]) =
      .ok ⟨[("a", Val.vlist [])], some "b", [], [], 1, true, false⟩ :=
  ⟨by rfl, by decide,
   C3_header_flush_drops_pending_entry ["A (2):", "k: v"]
     ⟨[], some "a", [], [("k", "v")], 2, true, true⟩ "B:" "B".data [] 1
     (by rfl) (by decide) (by decide) rfl (by rfl)⟩

/-- Claim C4 counterexample: the error raised on a malformed section count is
the bare `ValueError` of `int`, carrying only the invalid literal text: the
same error value arises for malformed headers with different raw line text
and different 1-based line numbers (line 1 of the first input, line 2 of the
second), so the error carries neither; moreover a parenthetical holding a
negative integer is not an error at all, although it does not hold a valid
non-negative integer. -/
theorem C4_counterexample :
    interpret_dfsadmin_report ["Live datanodes (x):"] = .error (PyErr.valueError "x") ∧
    interpret_dfsadmin_report ["foo: bar", "Dead datanodes (x):"] =
      .error (PyErr.valueError "x") ∧
    interpret_dfsadmin_report ["Weird (-2):"] = .ok [("weird", Val.vlist [])] := by
  refine ⟨rfl, rfl, rfl⟩

/-- Claim C4 as amended: a section-header parenthetical that does not hold a
valid Python integer literal (sign allowed, so a negative count is accepted)
makes the parse abort with the `ValueError` of `int`, which carries only the
offending parenthetical text and not the raw line or its line number; a
header with no parenthetical at all opens a scalar section with count 1 and
no error. -/
theorem C4_malformed_count_aborts :
    (∀ (pre rest : List String) (st : DfsState) (h : String) (k0 v0 : List Char),
      runDfs pre = .ok st →
      splitColon (stripL h.data) = some (k0, v0) →
      stripValL v0 = [] →
      '(' ∈ k0 →
      pyInt (countText (stripL h.data)) = none →
      interpret_dfsadmin_report (pre ++ h :: rest) =
        .error (.valueError (String.mk (countText (stripL h.data))))) ∧
    (∀ (pre : List String) (st : DfsState) (h : String) (k0 v0 : List Char),
      runDfs pre = .ok st →
      splitColon (stripL h.data) = some (k0, v0) →
      stripValL v0 = [] →
      '(' ∉ stripL h.data →
      runDfs (pre ++ [h]) = .ok
        ⟨(if truthy st.cs then
            updA st.dict (st.cs.getD "") (if st.isArr then Val.vlist st.col else Val.obj st.cobj)
          else st.dict),
         some (String.mk (normKeyL k0)), [], [], 1, true, false⟩) := by
  constructor
  · intro pre rest st h k0 v0 hpre hsplit hval hpar hpy
    rw [interpret_dfsadmin_report, runDfs, List.foldlM_append,
      show pre.foldlM stepDfs dfsInit = .ok st from hpre, exceptBind_ok, List.foldlM_cons,
      stepDfs_header_err st h k0 v0 hsplit hval hpar hpy, exceptBind_error]
    rfl
  · intro pre st h k0 v0 hpre hsplit hval hnp
    have hnpk : '(' ∉ k0 := fun hk => hnp (by
      rw [splitColon_eq _ _ _ hsplit]
      exact List.mem_append_left _ hk)
    have hrem : headerRem (stripL h.data) k0 = .ok 1 := by
      simp [headerRem, hnpk]
    refine runDfs_append_one pre h st _ hpre ?_
    rw [stepDfs_header st h k0 v0 1 hsplit hval hrem]
    simp [hnp]

theorem C4_malformed_count_aborts_witness :
    pyInt (countText (stripL ("Live datanodes (x):").data)) = none ∧
    interpret_dfsadmin_report ([] ++ "Live datanodes (x):" :: []) =
      .error (.valueError "x") ∧
    ('(' ∉ stripL ("Name:").data ∧
      runDfs ([] ++ ["Name:"]) = .ok ⟨[], some "name", [], [], 1, true, false⟩) :=
  ⟨by decide,
   C4_malformed_count_aborts.1 [] [] dfsInit "Live datanodes (x):"
     "Live datanodes (x)".data [] rfl (by decide) rfl (by decide) (by decide),
   by decide,
   C4_malformed_count_aborts.2 [] dfsInit "Name:" "Name".data [] rfl
     (by decide) rfl (by decide)⟩

/-- Claim C5 counterexample: the capacity parser normalizes section keys, so
the scalar section opened by the header `Name: ` is stored under the
canonical key `name`, and the Report has no key `Name` as the claim
requires. -/
theorem C5_counterexample :
    interpret_dfsadmin_report ["Name: ", "foo: bar", "", "baz: qux"] =
      .ok [("name", Val.obj [("foo", "bar")]), ("baz", Val.leaf "qux")] ∧
    lookupA [("name", Val.obj [("foo", "bar")]), ("baz", Val.leaf "qux")] "Name" = none := by
  constructor
  · rfl
  · decide

/-- Claim C5 as amended: for the input `Name: `, `foo: bar`, blank,
`baz: qux`, the scalar section is fully closed by the single blank line: the
Report maps the canonical key `name` to the object with the single pair
`foo = bar`, and maps `baz` to the leaf `qux` at top level, not nested under
the section. -/
theorem C5_scalar_closed_by_one_blank :
    interpret_dfsadmin_report ["Name: ", "foo: bar", "", "baz: qux"] =
      .ok [("name", Val.obj [("foo", "bar")]), ("baz", Val.leaf "qux")] ∧
    lookupA [("name", Val.obj [("foo", "bar")]), ("baz", Val.leaf "qux")] "name" =
      some (Val.obj [("foo", "bar")]) ∧
    lookupA [("name", Val.obj [("foo", "bar")]), ("baz", Val.leaf "qux")] "baz" =
      some (Val.leaf "qux") := by
  refine ⟨rfl, by decide, by decide⟩

/-- Claim C6 counterexample: the consistency parser stores a value with a
parenthetical suffix unchanged (only trimmed), so `Total size: 100 (bytes)`
yields the leaf `100 (bytes)`, not the stripped `100` the claim requires of
both dialects. -/
theorem C6_counterexample :
    interpret_fsck_output ["Total size: 100 (bytes)"] =
      .ok [("Total size", Val.leaf "100 (bytes)")] ∧
    Val.leaf "100 (bytes)" ≠ Val.leaf "100" := by
  constructor
  · rfl
  · decide

/-- Claim C6 as amended: only the capacity parser strips the parenthetical
suffix (the text from the first space-parenthesis pair to the line end) from
a value before storing it as a Leaf; the consistency parser stores the
trimmed value unchanged, parenthetical suffix included. -/
theorem C6_value_paren_strip_capacity_only :
    (∀ (pre : List String) (st : FsckState) (line : String) (k0 v0 : List Char),
      runFsck pre = .ok st →
      splitColon line.data = some (k0, v0) →
      stripL v0 ≠ [] →
      st.cs = none →
      interpret_fsck_output (pre ++ [line]) =
        .ok (updA st.dict (String.mk (stripL k0)) (Val.leaf (String.mk (stripL v0))))) ∧
    (∀ (pre : List String) (st : DfsState) (line : String) (k0 v0 : List Char),
      runDfs pre = .ok st →
      splitColon (stripL line.data) = some (k0, v0) →
      stripValL v0 ≠ [] →
      ¬(st.inObj = true ∧ 0 < st.rem) →
      truthy st.cs = false →
      runDfs (pre ++ [line]) =
        .ok { st with
              dict := updA st.dict (String.mk (normKeyL k0))
                (Val.leaf (String.mk (stripValL v0))) }) := by
  constructor
  · intro pre st line k0 v0 hpre hsplit hval hcs
    exact interpretFsck_append_one pre line st _ hpre
      (stepFsck_top st line k0 v0 hsplit hval hcs)
  · intro pre st line k0 v0 hpre hsplit hval hcond hcs
    exact runDfs_append_one pre line st _ hpre
      (stepDfs_kv_top st line k0 v0 hsplit hval hcond hcs)

theorem C6_value_paren_strip_capacity_only_witness :
    splitColon ("Total size: 100 (bytes)").data =
      some ("Total size".data, " 100 (bytes)".data) ∧
    interpret_fsck_output ([] ++ ["Total size: 100 (bytes)"]) =
      .ok [("Total size", Val.leaf "100 (bytes)")] ∧
    runDfs ([] ++ ["Total size: 100 (bytes)"]) =
      .ok ⟨[("total_size", Val.leaf "100")], none, [], [], 0, false, false⟩ :=
  ⟨by decide,
   C6_value_paren_strip_capacity_only.1 [] ⟨[], none⟩ "Total size: 100 (bytes)"
     "Total size".data " 100 (bytes)".data rfl (by decide) (by decide) rfl,
   C6_value_paren_strip_capacity_only.2 [] dfsInit "Total size: 100 (bytes)"
     "Total size".data " 100 (bytes)".data rfl (by decide) (by decide) (by decide) rfl⟩

/-- Claim C7 counterexample: the consistency parser trims the raw key text,
so the line with key text `  Status ` (surrounding whitespace) is stored
under `Status`, not under the unmodified text left of the first colon as the
claim requires. -/
theorem C7_counterexample :
    interpret_fsck_output ["  Status :  HEALTHY  "] =
      .ok [("Status", Val.leaf "HEALTHY")] ∧
    lookupA [("Status", Val.leaf "HEALTHY")] "  Status " = none := by
  constructor
  · rfl
  · decide

/-- Claim C7 as amended: the consistency parser stores keys as the text left
of the first colon trimmed of surrounding whitespace, but otherwise
unmodified: no lowercasing, no separator rewriting, and no parenthetical
stripping, both for section headers and for key/value pairs inside a
section. -/
theorem C7_fsck_keys_trimmed_only :
    (∀ (pre : List String) (st : FsckState) (line : String) (k0 v0 : List Char),
      runFsck pre = .ok st →
      splitColon line.data = some (k0, v0) →
      stripL v0 = [] →
      interpret_fsck_output (pre ++ [line]) =
        .ok (updA st.dict (String.mk (stripL k0)) (Val.obj []))) ∧
    (∀ (pre : List String) (st : FsckState) (line : String) (k0 v0 : List Char)
        (s : String) (m : List (String × String)),
      runFsck pre = .ok st →
      splitColon line.data = some (k0, v0) →
      stripL v0 ≠ [] →
      st.cs = some s →
      lookupA st.dict s = some (Val.obj m) →
      interpret_fsck_output (pre ++ [line]) =
        .ok (updA st.dict s
          (Val.obj (updA m (String.mk (stripL k0)) (String.mk (stripL v0)))))) := by
  constructor
  · intro pre st line k0 v0 hpre hsplit hval
    exact interpretFsck_append_one pre line st _ hpre
      (stepFsck_header st line k0 v0 hsplit hval)
  · intro pre st line k0 v0 s m hpre hsplit hval hcs hm
    exact interpretFsck_append_one pre line st _ hpre
      (stepFsck_sect st line k0 v0 s m hsplit hval hcs hm)

theorem C7_fsck_keys_trimmed_only_witness :
    splitColon (" Under replicated blocks :").data =
      some (" Under replicated blocks ".data, []) ∧
    interpret_fsck_output ([] ++ [" Under replicated blocks :"]) =
      .ok [("Under replicated blocks", Val.obj [])] ∧
    (lookupA ([("Status", Val.obj [])] : Report) "Status" = some (Val.obj []) ∧
     interpret_fsck_output (["Status:"] ++ ["Missing Blocks (with replication factor 1): 5"]) =
       .ok [("Status", Val.obj [("Missing Blocks (with replication factor 1)", "5")])]) :=
  ⟨by decide,
   C7_fsck_keys_trimmed_only.1 [] ⟨[], none⟩ " Under replicated blocks :"
     " Under replicated blocks ".data [] rfl (by decide) rfl,
   by decide,
   C7_fsck_keys_trimmed_only.2 ["Status:"] ⟨[("Status", Val.obj [])], some "Status"⟩
     "Missing Blocks (with replication factor 1): 5"
     "Missing Blocks (with replication factor 1)".data " 5".data "Status" []
     (by rfl) (by decide) (by decide) rfl (by decide)⟩

/-- Claim C8 counterexample: key normalization is not idempotent on every raw
key: for the key consisting of `a`, a tab, then a space-parenthesis pair and
`x`, the first normalization leaves a trailing tab (truncation at the first
space-parenthesis happens after the trim), and the second normalization
trims it away, so applying normalize twice differs from applying it once. -/
theorem C8_counterexample : normKey (normKey "a\t (x") ≠ normKey "a\t (x" := by decide

/-- Claim C8 as amended: key normalization is idempotent on every raw key
whose whitespace characters are all plain spaces (in particular on every key
the report formats produce); a non-space whitespace character immediately
before the first space-parenthesis pair survives the first pass and is
trimmed only by the second, breaking idempotence in general. -/
theorem C8_normalize_idempotent_on_space_only_keys (k : String)
    (H : ∀ c ∈ k.data, isPySpace c = true → c = ' ') :
    normKey (normKey k) = normKey k :=
  congrArg String.mk (normKeyL_idem k.data H)

theorem C8_normalize_idempotent_on_space_only_keys_witness :
    (∀ c ∈ ("Cache Used%" : String).data, isPySpace c = true → c = ' ') ∧
    normKey (normKey "Cache Used%") = normKey "Cache Used%" :=
  ⟨by decide, C8_normalize_idempotent_on_space_only_keys "Cache Used%" (by decide)⟩

/-- Claim C9: a section header with parenthetical count 0 (here
`Dead datanodes (0):`) opens an array section that accepts no entries: any
key/value lines before the next section header (or the end of input) are
written under the section name as an object but are overwritten by the empty
List when the section is flushed, so the returned Report maps the section
name to the empty List and contains nothing else from those lines; this
holds both when the input ends there and when another section header
follows. -/
theorem C9_zero_count_section_empty_list (mid : List String)
    (hmid : ∀ l ∈ mid, isHeaderB l = false) :
    interpret_dfsadmin_report ("Dead datanodes (0):" :: mid) =
      .ok [("dead_datanodes", Val.vlist [])] ∧
    interpret_dfsadmin_report (("Dead datanodes (0):" :: mid) ++ ["Live datanodes (1):"]) =
      .ok [("dead_datanodes", Val.vlist []), ("live_datanodes", Val.vlist [])] := by
  have hh : stepDfs dfsInit "Dead datanodes (0):" =
      .ok ⟨[], some "dead_datanodes", [], [], 0, false, true⟩ := by rfl
  obtain ⟨d2, hrun, hd2⟩ := c9_run mid hmid [] (Or.inl rfl)
  have hfin : finishDfs ⟨d2, some "dead_datanodes", [], [], 0, false, true⟩ =
      updA d2 "dead_datanodes" (Val.vlist []) := by
    simp [finishDfs, truthy]
  constructor
  · rw [interpret_dfsadmin_report, runDfs, List.foldlM_cons, hh, exceptBind_ok, hrun]
    rw [show ∀ x : DfsState, (Except.ok x : Except PyErr DfsState).map finishDfs =
      .ok (finishDfs x) from fun x => rfl, hfin]
    rcases hd2 with h2 | ⟨m, h2⟩ <;> subst h2 <;> simp [updA]
  · rw [interpret_dfsadmin_report, runDfs, List.foldlM_append, List.foldlM_cons, hh,
      exceptBind_ok, hrun, exceptBind_ok, List.foldlM_cons]
    have hh2 : stepDfs ⟨d2, some "dead_datanodes", [], [], 0, false, true⟩
        "Live datanodes (1):" =
        .ok ⟨updA d2 "dead_datanodes" (Val.vlist []), some "live_datanodes",
             [], [], 1, true, true⟩ := by
      rfl
    rw [hh2, exceptBind_ok, List.foldlM_nil]
    have hfin2 : finishDfs ⟨updA d2 "dead_datanodes" (Val.vlist []), some "live_datanodes",
        [], [], 1, true, true⟩ =
        updA (updA d2 "dead_datanodes" (Val.vlist [])) "live_datanodes" (Val.vlist []) := by
      simp [finishDfs, truthy]
    rw [show ∀ x : DfsState, (pure x : Except PyErr DfsState).map finishDfs =
      .ok (finishDfs x) from fun x => rfl, hfin2]
    rcases hd2 with h2 | ⟨m, h2⟩ <;> subst h2 <;> simp [updA]

theorem C9_zero_count_section_empty_list_witness :
    (∀ l ∈ (["k: v", "", "nocolon"] : List String), isHeaderB l = false) ∧
    (interpret_dfsadmin_report ("Dead datanodes (0):" :: ["k: v", "", "nocolon"]) =
      .ok [("dead_datanodes", Val.vlist [])] ∧
     interpret_dfsadmin_report
        (("Dead datanodes (0):" :: ["k: v", "", "nocolon"]) ++ ["Live datanodes (1):"]) =
      .ok [("dead_datanodes", Val.vlist []), ("live_datanodes", Val.vlist [])]) :=
  ⟨by decide, C9_zero_count_section_empty_list ["k: v", "", "nocolon"] (by decide)⟩

/-- Claim C10: in the consistency parser, a section-header line (a key/value
line whose trimmed value is empty) always resets its key to a fresh empty
object in the Report: for any preceding input, the Report right after the
header binds the trimmed key to the empty object, so pairs accumulated under
an earlier occurrence of the same header are gone unless re-added later. -/
theorem C10_repeated_header_resets_section (pre : List String) (h : String)
    (k0 v0 : List Char)
    (hsplit : splitColon h.data = some (k0, v0)) (hval : stripL v0 = []) :
    ∃ r, interpret_fsck_output (pre ++ [h]) = .ok r ∧
      lookupA r (String.mk (stripL k0)) = some (Val.obj []) := by
  obtain ⟨st, hrun, hinv⟩ := runFsck_ok pre
  refine ⟨updA st.dict (String.mk (stripL k0)) (Val.obj []), ?_, lookupA_updA_self _ _ _⟩
  rw [interpret_fsck_output, runFsck, List.foldlM_append]
  rw [show (pre.foldlM stepFsck ⟨[], none⟩ : Except PyErr FsckState) = .ok st from hrun]
  rw [exceptBind_ok, List.foldlM_cons, stepFsck_header st h k0 v0 hsplit hval, exceptBind_ok,
    List.foldlM_nil]
  rfl

theorem C10_repeated_header_resets_section_witness :
    splitColon ("A:").data = some ("A".data, []) ∧
    (∃ r, interpret_fsck_output (["A:", "x: 1"] ++ ["A:"]) = .ok r ∧
      lookupA r (String.mk (stripL "A".data)) = some (Val.obj [])) :=
  ⟨by decide, C10_repeated_header_resets_section ["A:", "x: 1"] "A:" "A".data [] (by decide) rfl⟩
